import Mathlib

/-!
Verification development for the pyTecanFluent worklist compiler.

The Python sources are shallowly embedded: volumes and concentrations are
modelled as exact rationals, Python int() as truncation toward zero, and
Python round(x, d) as round-half-up at d decimal places on exact rationals
(the concrete inputs used below stay away from half-way ties, where the
binary floating point behaviour of CPython could differ).  Fallible code
is embedded with Option or Except, a `none`/`.error` result standing for a
raised Python exception.
-/

namespace PyTecanFluent

/-- Python int() applied to a numeric value: truncation toward zero. -/
def pyInt (q : ℚ) : ℤ := if q < 0 then -⌊-q⌋ else ⌊q⌋

/-- Python round(x, d) modelled on exact rationals as round-half-up at
d decimal places. -/
def pyRound (q : ℚ) (d : ℕ) : ℚ := ((round (q * 10 ^ d) : ℤ) : ℚ) / 10 ^ d

/-- The fixed allow-list of liquid classes, from Fluent._psbl_liq_cls. -/
def psbl_liq_cls : List String :=
  ["Water Free Multi", "Water Free Multi No-cLLD",
   "Water Free Single", "Water Free Single No-cLLD",
   "MasterMix Free Multi", "MasterMix Free Multi No-cLLD",
   "MasterMix Free Single", "MasterMix Free Single No-cLLD",
   "Ethanol Free Multi",
   "Ethanol Free Single",
   "DMSO Free Multi",
   "DMSO Free Single",
   "Serum Free Multi",
   "Serum Free Single",
   "Water Contact Wet Multi", "Water Contact Wet Multi No-cLLD",
   "Water Contact Wet Single", "Water Contact Wet Single No-cLLD",
   "Water Mix", "Water Mix No-cLLD"]

/-- Modelled from the spec: the Command Model (spec section 3 and 4.5).
The Fluent module of this snapshot lacks the record classes
Fluent.Dispense, Fluent.Aspirate, Fluent.Waste, Fluent.Comment and
Fluent.Break that Map2Robot.pip_mastermix instantiates; they are modelled
here as a tagged variant type with the fields pip_mastermix assigns.  The
RackLabel string of a synthesized Aspirate encodes only its tube number
(the source writes the label with a fixed template around tube_id), so the
variant carries the tube id directly. -/
inductive Cmd where
  | dispense (rackLabel rackType : String) (position : ℤ) (volume : ℚ) (liquidClass : String)
  | aspirate (tubeId : ℤ) (rackType : String) (position : ℤ) (volume : ℚ) (liquidClass : String)
  | waste
  | comment (s : String)
  | brk
  deriving DecidableEq, Repr

/-- Recognizer for Dispense commands. -/
def isDisp : Cmd → Bool
  | .dispense _ _ _ _ _ => true
  | _ => false

/-- Recognizer for Waste (wash) markers. -/
def isWaste : Cmd → Bool
  | .waste => true
  | _ => false

/-- Recognizer for Aspirate commands. -/
def isAsp : Cmd → Bool
  | .aspirate _ _ _ _ _ => true
  | _ => false

/-- The volume of a Dispense command (0 for every other variant). -/
def dispVol : Cmd → ℚ
  | .dispense _ _ _ v _ => v
  | _ => 0

/-- One destination row of the mapping dataframe, as read by pip_mastermix
(columns TECAN_dest_labware_name, TECAN_dest_labware_type,
TECAN_dest_target_position). -/
structure DestRow where
  labwareName : String
  labwareType : String
  position : ℤ
  deriving DecidableEq, Repr

/-- The Dispense command pip_mastermix builds for one destination row. -/
def mkDisp (mmVol : ℚ) (liq : String) (r : DestRow) : Cmd :=
  Cmd.dispense r.labwareName r.labwareType r.position mmVol liq

/-- One step of channel filling in pip_mastermix: append the dispense and,
when the channel length (wash markers included) has become a multiple of
multi_disp, append a Waste marker. -/
def chStep (m : ℕ) (d : Cmd) (v : List Cmd) : List Cmd :=
  let v1 := v ++ [d]
  if v1.length % m = 0 then v1 ++ [Cmd.waste] else v1

/-- The distribute/sub-batch loop of pip_mastermix: row i is appended to
channel i % 8. -/
def fillChannels (mmVol : ℚ) (liq : String) (m : ℕ) :
    ℕ → List DestRow → (ℕ → List Cmd) → (ℕ → List Cmd)
  | _, [], ch => ch
  | i, r :: rs, ch =>
      fillChannels mmVol liq m (i + 1) rs
        (Function.update ch (i % 8) (chStep m (mkDisp mmVol liq r) (ch (i % 8))))

/-- Does the channel list end with a Waste marker (isinstance(v[-1], Waste))? -/
def endsWasteB (v : List Cmd) : Bool := (v.getLast?).elim false isWaste

/-- The trailing-Waste fixup of pip_mastermix over one channel. -/
def phase2 (v : List Cmd) : List Cmd :=
  if endsWasteB v then v else v ++ [Cmd.waste]

/-- The reverse scan of pip_mastermix over one channel, processing the
reversed channel list with its enumeration index i; L is the length of the
channel list.  cmds accumulates output (in reversed order), volSum is the
running dispense-volume sum, total the global cumulative volume counter.
Mirrors Map2Robot.py lines 481-498; note that when the aspirate branch is
taken the elif that accumulates a dispense volume is skipped. -/
def revScanGo (L : ℕ) (liq : String) (M : ℚ) :
    ℕ → List Cmd → List Cmd → ℚ → ℚ → List Cmd × ℚ
  | _, [], cmds, _, total => (cmds, total)
  | i, x :: rest, cmds, volSum, total =>
      let cmds1 := if isDisp x then cmds ++ [x] else cmds
      if i = L - 1 ∨ (i ≠ 0 ∧ isWaste x) then
        let asp : Cmd := Cmd.aspirate (pyInt (total / M) + 1) "1.5ml Eppendorf" 1
          (pyRound (volSum * (23 / 20)) 1) liq
        let cmds2 := (cmds1 ++ [asp]) ++ (if isWaste x then [x] else [])
        revScanGo L liq M (i + 1) rest cmds2 0 (total + volSum)
      else
        let volSum1 := if isDisp x then volSum + dispVol x else volSum
        let cmds2 := cmds1 ++ (if isWaste x then [x] else [])
        revScanGo L liq M (i + 1) rest cmds2 volSum1 total

/-- The aspirate-synthesis pass of pip_mastermix over the channels in
channel order, threading the global cumulative volume counter. -/
def revScanChannels (liq : String) (M : ℚ) : List (List Cmd) → ℚ → List (List Cmd) × ℚ
  | [], total => ([], total)
  | v :: vs, total =>
      let p := revScanGo v.length liq M 0 v.reverse [] 0 total
      let q := revScanChannels liq M vs p.2
      (p.1.reverse :: q.1, q.2)

/-- The per-channel command lists produced by Map2Robot.pip_mastermix.
M is the max volume of the 1.5ml Eppendorf source tube; the labware
catalog that pip_mastermix looks it up from is not part of this snapshot,
so (modelled from the spec, section 4.4) it is taken as the parameter
sourceMaxVolume.  none models a raised exception: an invalid liquid class
(TypeError from the Dispense liquid-class setter), multi_disp = 0
(ZeroDivisionError), or an empty channel (IndexError on v[-1], which
happens whenever fewer than 8 rows are given). -/
def pip_mastermix_channels (rows : List DestRow) (mmVol : ℚ) (m : ℕ)
    (liq : String) (M : ℚ) : Option (List (List Cmd)) :=
  if ¬ rows.isEmpty ∧ liq ∉ psbl_liq_cls then none
  else if ¬ rows.isEmpty ∧ m = 0 then none
  else
    let ch := fillChannels mmVol liq m 0 rows (fun _ => [])
    let vs := (List.range 8).map ch
    if vs.all (fun v => !v.isEmpty) then
      some (revScanChannels liq M (vs.map phase2) 0).1
    else none

/-- The full command stream emitted by Map2Robot.pip_mastermix: a comment,
the eight channels in channel order, and a break. -/
def pip_mastermix (rows : List DestRow) (mmVol : ℚ) (m : ℕ)
    (liq : String) (M : ℚ) : Option (List Cmd) :=
  (pip_mastermix_channels rows mmVol m liq M).map
    (fun chs => Cmd.comment "MasterMix" :: (chs.flatten ++ [Cmd.brk]))

/-- The volumes of the Aspirate commands of a command list, in order. -/
def aspVolumes (l : List Cmd) : List ℚ :=
  l.filterMap fun x => match x with
    | .aspirate _ _ _ v _ => some v
    | _ => none

/-- The tube ids of the Aspirate commands of a command list, in order. -/
def aspTubeIds (l : List Cmd) : List ℤ :=
  l.filterMap fun x => match x with
    | .aspirate t _ _ _ _ => some t
    | _ => none

/-- The volumes of the Dispense commands of a command list, in order. -/
def dispVolumes (l : List Cmd) : List ℚ :=
  l.filterMap fun x => match x with
    | .dispense _ _ _ v _ => some v
    | _ => none

/-- Sum of the volumes of the Aspirate commands labeled with tube t. -/
def tubeVolume (t : ℤ) (l : List Cmd) : ℚ :=
  (l.filterMap fun x => match x with
    | .aspirate t2 _ _ v _ => if t2 = t then some v else none
    | _ => none).sum

/-- The tube ids of the synthesized aspirates in the order in which the
reverse scan emitted them (per channel the final list is the reverse of
the emission order; channels are processed in channel order). -/
def emissionTubeIds (chs : List (List Cmd)) : List ℤ :=
  (chs.map (fun l => (aspTubeIds l).reverse)).flatten

/-- Fold step computing (longest run of consecutive Dispense commands so
far, length of the current trailing run of Dispense commands). -/
def runStep (s : ℕ × ℕ) (x : Cmd) : ℕ × ℕ :=
  if isDisp x then (max s.1 (s.2 + 1), s.2 + 1) else (s.1, 0)

/-- The longest run of consecutive Dispense commands in a command list. -/
def maxDispRun (l : List Cmd) : ℕ := (l.foldl runStep (0, 0)).1

/-- Invariant of a channel list maintained by the distribute/sub-batch
loop of pip_mastermix: the longest dispense run is at most m, the
trailing dispense run is bounded by the list length mod m (the length,
wash markers included, is what the source compares against multi_disp),
the list holds only Dispense and Waste commands whose dispense volumes
are mmVol, and a non-empty list starts with a Dispense. -/
def ChInv (m : ℕ) (mmVol : ℚ) (v : List Cmd) : Prop :=
  (v.foldl runStep (0, 0)).1 ≤ m ∧
  (v.foldl runStep (0, 0)).2 ≤ v.length % m ∧
  (∀ x ∈ v, isDisp x = true ∨ isWaste x = true) ∧
  (v = [] ∨ ∃ y t, v = y :: t ∧ isDisp y = true) ∧
  (∀ x ∈ v, dispVol x = mmVol ∨ dispVol x = 0)

/-- A concrete destination plate with n rows at positions 1..n, used as
the input for concrete evaluations. -/
def mkRows (n : ℕ) : List DestRow :=
  (List.range n).map fun i =>
    { labwareName := "Destination plate"
      labwareType := "96 Well Eppendorf TwinTec PCR"
      position := (i : ℤ) + 1 }

/-! ### Dilute.py: the dilution volume planner -/

/-- Dilute.calc_total_volume for one row: provisional post-dilution total,
conc * min_vol / dilute_conc capped above at max_vol. -/
def calc_total_volume (conc min_vol max_vol dilute_conc : ℚ) : ℚ :=
  let x := conc * min_vol / dilute_conc
  if x > max_vol then max_vol else x

/-- Dilute.calc_sample_volume for one row: dilute_conc * total / conc,
capped above at max_vol then below at min_vol; max_vol directly when
conc <= 0. -/
def calc_sample_volume (conc total dilute_conc min_vol max_vol : ℚ) : ℚ :=
  if conc ≤ 0 then max_vol
  else
    let x := dilute_conc * total / conc
    let x1 := if x > max_vol then max_vol else x
    if x1 < min_vol then min_vol else x1

/-- Dilute.calc_dilutant_volume: total - sample, floored at 0. -/
def calc_dilutant_volume (total sample : ℚ) : ℚ :=
  let x := total - sample
  if x < 0 then 0 else x

/-- The per-row output columns of Dilute.dilution_volumes. -/
structure DiluteResult where
  sampleVolume : ℚ
  dilutantVolume : ℚ
  totalVolume : ℚ
  finalConc : ℚ
  deriving DecidableEq, Repr

/-- Dilute.dilution_volumes specialized to a one-row concentration table
(for a single row the column maximum used by the capacity check is the
value of the row itself).  max_well_vol is the max_volume attribute of the
destination labware type; the labware catalog is not part of this
snapshot, so (modelled from the spec, section 4.3) it is a parameter.
none models the raised ValueError.  The capacity check runs BEFORE the
total is raised to min_total, exactly as in the source (Dilute.py lines
347-356). -/
def dilution_volumes_row (conc dilute_conc min_vol max_vol min_total max_well_vol : ℚ) :
    Option DiluteResult :=
  let conc1 := if conc < 0 then 0 else conc
  let total := calc_total_volume conc1 min_vol max_vol dilute_conc
  if total > max_well_vol then none
  else
    let total1 := if total < min_total then min_total else total
    let sample := calc_sample_volume conc1 total1 dilute_conc min_vol max_vol
    let dilutant := calc_dilutant_volume total1 sample
    let total2 := sample + dilutant
    some ⟨sample, dilutant, total2, conc1 * sample / total2⟩

/-! ### Utils.py: check_gwl and the 384-well reorder -/

/-- The whitespace characters stripped by Python str.rstrip() (the ASCII
ones; lines of a gwl file contain no other whitespace). -/
def pyIsSpace (c : Char) : Bool :=
  c == ' ' || c == '\t' || c == '\n' || c == '\r' || c == '\x0b' || c == '\x0c'

/-- Python str.rstrip() on a line modelled as a list of characters. -/
def pyRstrip (l : List Char) : List Char :=
  (l.reverse.dropWhile pyIsSpace).reverse

/-- The valid leading command tags of a gwl line (Utils.check_gwl). -/
def valid_cmd_ids : List Char := ['A', 'D', 'R', 'W', 'F', 'C', 'B']

/-- Does Utils.check_gwl raise on this line?  The line is rstripped; an
empty result raises ValueError, otherwise the first character must be a
valid command tag. -/
def checkLineFails (l : List Char) : Bool :=
  match pyRstrip l with
  | [] => true
  | c :: _ => !(valid_cmd_ids.contains c)

/-- Utils.check_gwl over the logical lines of the file (each line given
without its terminating newline, which rstrip would remove anyway):
true iff the check raises an error on some line. -/
def check_gwl (lines : List (List Char)) : Bool := lines.any checkLineFails

/-- Spec-side line-validity predicate, following the words of the claim:
a line is invalid when it is empty or its first character is not a valid
command tag. -/
def specInvalidLine (l : List Char) : Bool :=
  match l with
  | [] => true
  | c :: _ => !(valid_cmd_ids.contains c)

/-- A row of a transfer table keyed by a position column: the position
together with the rest of the row, which must travel with it. -/
structure PlateRow (α : Type) where
  position : ℤ
  payload : α
  deriving DecidableEq, Repr

/-- Utils._reorder_384well on the rows of one labware group: when the
number of wells of the labware type is 384 (nWells, looked up in the
labware catalog that is not part of this snapshot and therefore, modelled
from the spec section 4.2, a parameter), concatenate the rows with odd
position and the rows with even position; otherwise return the table
unchanged. -/
def reorder_384well {α : Type} (nWells : ℕ) (rows : List (PlateRow α)) :
    List (PlateRow α) :=
  if nWells = 384 then
    rows.filter (fun r => r.position % 2 != 0) ++ rows.filter (fun r => r.position % 2 == 0)
  else rows

/-! ### Fluent.py: the asp_disp command record, its setters, and the
subclass constructors -/

/-- The attributes that asp_disp.__init__ sets on a fresh command object
(the six positional parameters of __init__ are ignored by its body). -/
structure asp_disp where
  ID : String := ""
  RackLabel : Option String := none
  RackID : Option String := none
  RackType : Option String := none
  Position : ℤ := 1
  TubeID : Option String := none
  Volume : Option ℚ := none
  LiquidClass : String := "Water Free Single"
  TipType : Option String := none
  TipMask : Option String := none
  deriving DecidableEq, Repr

/-- The state of a fresh asp_disp object after a successful __init__. -/
def asp_disp_init : asp_disp := {}

/-- The TypeError message for calling asp_disp.__init__ without its six
required positional arguments. -/
def initMissingArgs : String :=
  "TypeError: asp_disp.__init__ missing 6 required positional arguments"

/-- Python call semantics for asp_disp.__init__: it declares six required
positional parameters (RackLabel, RackID, RackType, Position, TubeID,
Volume) and no defaults, so a call binding any other number of positional
arguments raises TypeError before the body runs.  The body ignores the
parameters and sets fixed defaults. -/
def asp_disp_call (numArgs : ℕ) : Except String asp_disp :=
  if numArgs = 6 then .ok asp_disp_init else .error initMissingArgs

/-- Fluent.aspirate(): the subclass __init__ takes no arguments and calls
asp_disp.__init__(self) with zero of the six required arguments, then
would set _ID to A. -/
def aspirate_new : Except String asp_disp :=
  (asp_disp_call 0).map (fun c => { c with ID := "A" })

/-- Fluent.dispense(): same as aspirate(), with _ID D. -/
def dispense_new : Except String asp_disp :=
  (asp_disp_call 0).map (fun c => { c with ID := "D" })

/-- The asp_disp.Position setter: stores int(value) with no further
check (Fluent.py lines 117-119). -/
def set_Position (c : asp_disp) (v : ℚ) : asp_disp :=
  { c with Position := pyInt v }

/-- The asp_disp.LiquidClass setter: TypeError unless the value is in the
fixed allow-list. -/
def set_LiquidClass (c : asp_disp) (v : String) : Except String asp_disp :=
  if v ∈ psbl_liq_cls then .ok { c with LiquidClass := v }
  else .error "TypeError: liquid class not allowed"

/-- The multi_disp.DestPositions setter: coerce every element with int(),
then assert that the minimum is positive (Fluent.py lines 289-297; min of
an empty list raises ValueError). -/
def set_DestPositions (vals : List ℚ) : Except String (List ℤ) :=
  let ivals := vals.map pyInt
  match ivals.min? with
  | none => .error "ValueError: min() arg is an empty sequence"
  | some mn => if mn > 0 then .ok ivals else .error "AssertionError: Min position is <= 0"

/-! ### Dilute.pip_samples -/

/-- One row of the concentration table as consumed by Dilute.pip_samples. -/
structure SampleRow where
  labwareName : String
  labwareType : String
  position : ℤ
  sampleVolume : ℚ
  destLabwareName : String
  destLabwareType : String
  destPosition : ℤ
  deriving DecidableEq, Repr

/-- A line written to the gwl output stream by pip_samples, at the level
of command records (serialization is a separate concern). -/
inductive GwlLine where
  | commentLine (s : String)
  | cmdLine (c : asp_disp)
  | wasteLine
  deriving DecidableEq, Repr

/-- The row loop of Dilute.pip_samples: for each row build an aspirate via
Fluent.aspirate(), fill its fields, write it, then likewise a dispense via
Fluent.dispense(), then a waste line.  Returns the lines written so far
together with the error that aborted the loop, if any. -/
def pip_samples_go : List SampleRow → List GwlLine → List GwlLine × Option String
  | [], out => (out, none)
  | r :: rs, out =>
      match aspirate_new with
      | .error e => (out, some e)
      | .ok asp0 =>
          let asp1 := { asp0 with RackLabel := some r.labwareName,
                                  RackType := some r.labwareType }
          let asp2 := set_Position asp1 (r.position : ℚ)
          let asp3 := { asp2 with Volume := some (pyRound r.sampleVolume 2) }
          match set_LiquidClass asp3 "Water Contact Wet Single No-cLLD" with
          | .error e => (out, some e)
          | .ok asp4 =>
              match dispense_new with
              | .error e => (out ++ [.cmdLine asp4], some e)
              | .ok d0 =>
                  let d1 := { d0 with RackLabel := some r.destLabwareName,
                                      RackType := some r.destLabwareType }
                  let d2 := set_Position d1 (r.destPosition : ℚ)
                  let d3 := { d2 with Volume := some (pyRound r.sampleVolume 2) }
                  match set_LiquidClass d3 "Water Contact Wet Single No-cLLD" with
                  | .error e => (out ++ [.cmdLine asp4], some e)
                  | .ok d4 =>
                      pip_samples_go rs (out ++ [.cmdLine asp4, .cmdLine d4, .wasteLine])

/-- Dilute.pip_samples: writes the Samples comment and then runs the row
loop. -/
def pip_samples (rows : List SampleRow) : List GwlLine × Option String :=
  pip_samples_go rows [GwlLine.commentLine "Samples"]

/-! ## Helper lemmas -/

/-- A left fold with min bounds every member of the folded list and the
seed. -/
theorem foldl_min_le_mem (l : List ℤ) (a : ℤ) : ∀ x ∈ a :: l, l.foldl min a ≤ x := by
  induction l generalizing a with
  | nil =>
      intro x hx
      simp only [List.mem_singleton] at hx
      simp [hx]
  | cons b t ih =>
      intro x hx
      have step : (b :: t).foldl min a = t.foldl min (min a b) := rfl
      have hmin : t.foldl min (min a b) ≤ min a b :=
        ih (min a b) (min a b) (List.mem_cons_self _ _)
      rw [step]
      rcases List.mem_cons.mp hx with rfl | hx
      · exact le_trans hmin (min_le_left _ _)
      · rcases List.mem_cons.mp hx with rfl | hx2
        · exact le_trans hmin (min_le_right _ _)
        · exact ih (min a b) x (List.mem_cons_of_mem _ hx2)

/-- pyRstrip returns a prefix of the line. -/
theorem pyRstrip_prefix (l : List Char) : pyRstrip l <+: l := by
  obtain ⟨t, ht⟩ := List.dropWhile_suffix (l := l.reverse) pyIsSpace
  refine ⟨t.reverse, ?_⟩
  have h2 := congrArg List.reverse ht
  simp only [List.reverse_append, List.reverse_reverse] at h2
  simpa [pyRstrip] using h2

/-- A line that rstrips to nothing consists of whitespace only. -/
theorem pyRstrip_nil_isSpace (l : List Char) (h : pyRstrip l = []) :
    ∀ c ∈ l, pyIsSpace c = true := by
  intro c hc
  have h1 : l.reverse.dropWhile pyIsSpace = [] := by
    have := congrArg List.reverse h
    simpa [pyRstrip] using this
  have h2 := List.dropWhile_eq_nil_iff.mp h1
  exact h2 c (List.mem_reverse.mpr hc)

/-- No valid command tag is a whitespace character. -/
theorem valid_not_space (c : Char) (h : valid_cmd_ids.contains c = true) :
    pyIsSpace c = false := by
  have h2 : c ∈ valid_cmd_ids := by simpa using h
  simp only [valid_cmd_ids, List.mem_cons, List.not_mem_nil, or_false] at h2
  rcases h2 with rfl | rfl | rfl | rfl | rfl | rfl | rfl <;> rfl

/-- The per-line check of check_gwl agrees with the spec-side invalid-line
predicate: rstripping cannot change the first character of a line unless
the whole line is whitespace, and then the first character is not a valid
tag anyway. -/
theorem checkLine_eq_spec (l : List Char) : checkLineFails l = specInvalidLine l := by
  cases l with
  | nil => rfl
  | cons c rest =>
      cases h : pyRstrip (c :: rest) with
      | nil =>
          have hsp := pyRstrip_nil_isSpace _ h c (List.mem_cons_self _ _)
          have hnc : c ∉ valid_cmd_ids := by
            intro hmem
            have hcc : valid_cmd_ids.contains c = true := by simpa using hmem
            rw [valid_not_space c hcc] at hsp
            cases hsp
          simp [checkLineFails, specInvalidLine, h, hnc]
      | cons c2 r2 =>
          have hpre := pyRstrip_prefix (c :: rest)
          rw [h] at hpre
          obtain ⟨t, ht⟩ := hpre
          have hc2 : c2 = c := by
            have : c2 :: (r2 ++ t) = c :: rest := by simpa using ht
            injection this
          subst hc2
          simp [checkLineFails, specInvalidLine, h]

/-- A Dispense is not an Aspirate. -/
theorem isDisp_not_asp {x : Cmd} (h : isDisp x = true) : isAsp x = false := by
  cases x <;> simp_all [isDisp, isAsp]

/-- A Dispense is not a Waste marker. -/
theorem isDisp_not_waste {x : Cmd} (h : isDisp x = true) : isWaste x = false := by
  cases x <;> simp_all [isDisp, isWaste]

/-- Only the Waste constructor satisfies isWaste. -/
theorem isWaste_eq_waste {x : Cmd} (h : isWaste x = true) : x = Cmd.waste := by
  cases x <;> simp_all [isWaste]

/-- A Waste marker is not an Aspirate. -/
theorem isWaste_not_asp {x : Cmd} (h : isWaste x = true) : isAsp x = false := by
  cases x <;> simp_all [isWaste, isAsp]

/-- A Waste marker is not a Dispense. -/
theorem isWaste_not_disp {x : Cmd} (h : isWaste x = true) : isDisp x = false := by
  cases x <;> simp_all [isWaste, isDisp]

/-- The run-length fold is monotone in its seed, componentwise. -/
theorem foldl_runStep_mono :
    ∀ (l : List Cmd) (s t : ℕ × ℕ), s.1 ≤ t.1 → s.2 ≤ t.2 →
      (l.foldl runStep s).1 ≤ (l.foldl runStep t).1 ∧
      (l.foldl runStep s).2 ≤ (l.foldl runStep t).2 := by
  intro l
  induction l with
  | nil => exact fun s t h1 h2 => ⟨h1, h2⟩
  | cons x xs ih =>
      intro s t h1 h2
      simp only [List.foldl_cons]
      apply ih
      · show (runStep s x).1 ≤ (runStep t x).1
        unfold runStep
        split_ifs
        · exact max_le_max h1 (Nat.succ_le_succ h2)
        · exact h1
      · show (runStep s x).2 ≤ (runStep t x).2
        unfold runStep
        split_ifs
        · exact Nat.succ_le_succ h2
        · exact le_refl 0

/-- Removing only non-Dispense elements can merge dispense runs but never
shorten them: the longest dispense run of a list is bounded by that of any
filtered version that keeps every Dispense. -/
theorem foldl_runStep_le_filter (p : Cmd → Bool)
    (hp : ∀ x, isDisp x = true → p x = true) :
    ∀ (l : List Cmd) (s : ℕ × ℕ),
      (l.foldl runStep s).1 ≤ ((l.filter p).foldl runStep s).1 := by
  intro l
  induction l with
  | nil => intro s; exact le_refl _
  | cons x xs ih =>
      intro s
      by_cases hd : isDisp x = true
      · rw [List.filter_cons_of_pos (hp x hd)]
        simp only [List.foldl_cons]
        exact ih _
      · have hstep : runStep s x = (s.1, 0) := by
          unfold runStep
          rw [if_neg hd]
        by_cases hpx : p x = true
        · rw [List.filter_cons_of_pos hpx]
          simp only [List.foldl_cons, hstep]
          exact ih _
        · rw [List.filter_cons_of_neg (by simpa using hpx)]
          simp only [List.foldl_cons, hstep]
          refine le_trans (ih (s.1, 0)) ?_
          exact (foldl_runStep_mono (xs.filter p) (s.1, 0) (s.1, s.2)
            (le_refl _) (Nat.zero_le _)).1

/-- maxDispRun version of the filter bound. -/
theorem maxDispRun_le_filter (l : List Cmd) (p : Cmd → Bool)
    (hp : ∀ x, isDisp x = true → p x = true) :
    maxDispRun l ≤ maxDispRun (l.filter p) :=
  foldl_runStep_le_filter p hp l (0, 0)

/-- Successor modulo a positive m: either the residue just increments, or
it wraps to 0 from m - 1. -/
theorem succ_mod_cases (n m : ℕ) (hm : 0 < m) :
    ((n + 1) % m = n % m + 1 ∧ n % m + 1 < m) ∨
    ((n + 1) % m = 0 ∧ n % m = m - 1) := by
  have hk : n % m < m := Nat.mod_lt _ hm
  have h1 : (n + 1) % m = (n % m + 1) % m := by
    conv_lhs => rw [← Nat.mod_add_div n m, Nat.add_right_comm, Nat.add_mul_mod_self_left]
  rcases eq_or_lt_of_le (Nat.succ_le_of_lt hk) with heq | hlt
  · right
    have heq2 : n % m + 1 = m := heq
    refine ⟨?_, by omega⟩
    rw [h1, heq2, Nat.mod_self]
  · left
    exact ⟨by rw [h1, Nat.mod_eq_of_lt hlt], hlt⟩

/-- One chStep preserves the channel invariant. -/
theorem chInv_chStep (m : ℕ) (mmVol : ℚ) (liq : String) (r : DestRow) (v : List Cmd)
    (hm : 0 < m) (h : ChInv m mmVol v) :
    ChInv m mmVol (chStep m (mkDisp mmVol liq r) v) := by
  obtain ⟨hmax, htrail, hdw, hhead, hvols⟩ := h
  have hdisp : isDisp (mkDisp mmVol liq r) = true := rfl
  have hs1 : ((v ++ [mkDisp mmVol liq r]).foldl runStep (0, 0)).1
      = max (v.foldl runStep (0, 0)).1 ((v.foldl runStep (0, 0)).2 + 1) := by
    rw [List.foldl_append]
    simp only [List.foldl_cons, List.foldl_nil]
    unfold runStep
    rw [if_pos hdisp]
  have hs2 : ((v ++ [mkDisp mmVol liq r]).foldl runStep (0, 0)).2
      = (v.foldl runStep (0, 0)).2 + 1 := by
    rw [List.foldl_append]
    simp only [List.foldl_cons, List.foldl_nil]
    unfold runStep
    rw [if_pos hdisp]
  have htr1 : (v.foldl runStep (0, 0)).2 + 1 ≤ m := by
    rcases succ_mod_cases v.length m hm with ⟨_, hlt⟩ | ⟨_, hmod⟩ <;> omega
  have hmax1 : max (v.foldl runStep (0, 0)).1 ((v.foldl runStep (0, 0)).2 + 1) ≤ m :=
    max_le hmax htr1
  simp only [chStep]
  split_ifs with hsplit
  · refine ⟨?_, ?_, ?_, ?_, ?_⟩
    · have hw : (((v ++ [mkDisp mmVol liq r]) ++ [Cmd.waste]).foldl runStep (0, 0)).1
          = ((v ++ [mkDisp mmVol liq r]).foldl runStep (0, 0)).1 := by
        rw [List.foldl_append]
        simp only [List.foldl_cons, List.foldl_nil]
        unfold runStep
        rw [if_neg (by decide)]
      rw [hw, hs1]
      exact hmax1
    · have hw : (((v ++ [mkDisp mmVol liq r]) ++ [Cmd.waste]).foldl runStep (0, 0)).2
          = 0 := by
        rw [List.foldl_append]
        simp only [List.foldl_cons, List.foldl_nil]
        unfold runStep
        rw [if_neg (by decide)]
      rw [hw]
      exact Nat.zero_le _
    · intro x hx
      rcases List.mem_append.mp hx with hx | hx
      · rcases List.mem_append.mp hx with hx | hx
        · exact hdw x hx
        · rw [List.mem_singleton] at hx
          subst hx
          exact Or.inl hdisp
      · rw [List.mem_singleton] at hx
        subst hx
        exact Or.inr rfl
    · right
      rcases hhead with rfl | ⟨y, t, rfl, hdy⟩
      · exact ⟨mkDisp mmVol liq r, [Cmd.waste], rfl, hdisp⟩
      · exact ⟨y, (t ++ [mkDisp mmVol liq r]) ++ [Cmd.waste], by simp, hdy⟩
    · intro x hx
      rcases List.mem_append.mp hx with hx | hx
      · rcases List.mem_append.mp hx with hx | hx
        · exact hvols x hx
        · rw [List.mem_singleton] at hx
          subst hx
          exact Or.inl rfl
      · rw [List.mem_singleton] at hx
        subst hx
        exact Or.inr rfl
  · have hlft : (v.foldl runStep (0, 0)).2 + 1 ≤ (v ++ [mkDisp mmVol liq r]).length % m := by
      rcases succ_mod_cases v.length m hm with ⟨heq, _⟩ | ⟨heq0, _⟩
      · rw [List.length_append, List.length_singleton, heq]
        omega
      · exfalso
        apply hsplit
        rw [List.length_append, List.length_singleton]
        exact heq0
    refine ⟨?_, ?_, ?_, ?_, ?_⟩
    · rw [hs1]
      exact hmax1
    · rw [hs2]
      exact hlft
    · intro x hx
      rcases List.mem_append.mp hx with hx | hx
      · exact hdw x hx
      · rw [List.mem_singleton] at hx
        subst hx
        exact Or.inl hdisp
    · right
      rcases hhead with rfl | ⟨y, t, rfl, hdy⟩
      · exact ⟨mkDisp mmVol liq r, [], rfl, hdisp⟩
      · exact ⟨y, t ++ [mkDisp mmVol liq r], by simp, hdy⟩
    · intro x hx
      rcases List.mem_append.mp hx with hx | hx
      · exact hvols x hx
      · rw [List.mem_singleton] at hx
        subst hx
        exact Or.inl rfl

/-- The empty channel satisfies the invariant. -/
theorem chInv_nil (m : ℕ) (mmVol : ℚ) : ChInv m mmVol [] := by
  refine ⟨?_, ?_, ?_, Or.inl rfl, ?_⟩ <;> simp [List.foldl_nil]

/-- The distribute loop preserves the channel invariant on every channel. -/
theorem chInv_fillChannels (mmVol : ℚ) (liq : String) (m : ℕ) (hm : 0 < m) :
    ∀ (rows : List DestRow) (i : ℕ) (ch : ℕ → List Cmd),
      (∀ c, ChInv m mmVol (ch c)) →
      ∀ c, ChInv m mmVol ((fillChannels mmVol liq m i rows ch) c) := by
  intro rows
  induction rows with
  | nil => intro i ch h c; exact h c
  | cons r rs ih =>
      intro i ch h c
      rw [fillChannels]
      apply ih
      intro c2
      rw [Function.update_apply]
      split_ifs with hc
      · exact chInv_chStep m mmVol liq r (ch (i % 8)) hm (h (i % 8))
      · exact h c2

/-- What the trailing-Waste fixup guarantees for a non-empty channel list
satisfying the invariant. -/
theorem phase2_spec (m : ℕ) (mmVol : ℚ) (v : List Cmd) (hm : 0 < m)
    (h : ChInv m mmVol v) (hne : v ≠ []) :
    ((phase2 v).foldl runStep (0, 0)).1 ≤ m ∧
    (∀ x ∈ phase2 v, isDisp x = true ∨ isWaste x = true) ∧
    (phase2 v).getLast? = some Cmd.waste ∧
    2 ≤ (phase2 v).length ∧
    (∀ x ∈ phase2 v, dispVol x = mmVol ∨ dispVol x = 0) := by
  obtain ⟨hmax, htrail, hdw, hhead, hvols⟩ := h
  rcases hhead with rfl | ⟨y, t, rfl, hdy⟩
  · exact absurd rfl hne
  · unfold phase2
    split_ifs with hw
    · have hlast : (y :: t).getLast? = some Cmd.waste := by
        unfold endsWasteB at hw
        cases hl : (y :: t).getLast? with
        | none => rw [hl] at hw; cases hw
        | some z =>
            rw [hl] at hw
            simp only [Option.elim] at hw
            rw [isWaste_eq_waste hw]
      refine ⟨hmax, hdw, hlast, ?_, hvols⟩
      cases t with
      | nil =>
          exfalso
          have hz : y = Cmd.waste := by simpa using hlast
          rw [hz] at hdy
          cases hdy
      | cons a t2 =>
          simp only [List.length_cons]
          omega
    · have hrun : (((y :: t) ++ [Cmd.waste]).foldl runStep (0, 0)).1
          = ((y :: t).foldl runStep (0, 0)).1 := by
        rw [List.foldl_append]
        simp only [List.foldl_cons, List.foldl_nil]
        unfold runStep
        rw [if_neg (by decide)]
      refine ⟨by rw [hrun]; exact hmax, ?_, ?_, ?_, ?_⟩
      · intro x hx
        rcases List.mem_append.mp hx with hx | hx
        · exact hdw x hx
        · rw [List.mem_singleton] at hx
          subst hx
          exact Or.inr rfl
      · exact List.getLast?_concat _
      · simp only [List.length_append, List.length_cons, List.length_singleton]
        omega
      · intro x hx
        rcases List.mem_append.mp hx with hx | hx
        · exact hvols x hx
        · rw [List.mem_singleton] at hx
          subst hx
          exact Or.inr rfl

/-- The reverse scan only ever appends to its output accumulator. -/
theorem revScanGo_prefix (L : ℕ) (liq : String) (M : ℚ) :
    ∀ (rest : List Cmd) (i : ℕ) (cmds : List Cmd) (volSum total : ℚ),
      cmds <+: (revScanGo L liq M i rest cmds volSum total).1 := by
  intro rest
  induction rest with
  | nil =>
      intro i cmds volSum total
      rw [revScanGo]
  | cons x xs ih =>
      intro i cmds volSum total
      rw [revScanGo]
      by_cases hcond : i = L - 1 ∨ (i ≠ 0 ∧ isWaste x = true)
      · rw [if_pos hcond]
        refine List.IsPrefix.trans ?_ (ih _ _ _ _)
        split_ifs <;> (try simp only [List.append_assoc]) <;> exact List.prefix_append _ _
      · rw [if_neg hcond]
        refine List.IsPrefix.trans ?_ (ih _ _ _ _)
        split_ifs <;> (try simp only [List.append_assoc]) <;> exact List.prefix_append _ _

/-- Removing the synthesized aspirates from the reverse-scan output gives
back the scanned input: every Dispense and Waste of the input appears
exactly once, in scan order, and only Aspirates are inserted. -/
theorem revScanGo_filter (L : ℕ) (liq : String) (M : ℚ) :
    ∀ (rest : List Cmd) (i : ℕ) (cmds : List Cmd) (volSum total : ℚ),
      (∀ x ∈ rest, isDisp x = true ∨ isWaste x = true) →
      ((revScanGo L liq M i rest cmds volSum total).1).filter (fun x => !isAsp x)
        = cmds.filter (fun x => !isAsp x) ++ rest := by
  intro rest
  induction rest with
  | nil =>
      intro i cmds volSum total h
      simp [revScanGo]
  | cons x xs ih =>
      intro i cmds volSum total h
      have hx := h x (List.mem_cons_self _ _)
      have hxs : ∀ y ∈ xs, isDisp y = true ∨ isWaste y = true :=
        fun y hy => h y (List.mem_cons_of_mem _ hy)
      have hih := ih (i + 1)
      have haspAll : ∀ (t : ℤ) (rt : String) (p : ℤ) (vol : ℚ) (lc : String),
          isAsp (Cmd.aspirate t rt p vol lc) = true := fun _ _ _ _ _ => rfl
      rcases hx with hx | hx
      · have hnw : isWaste x = false := isDisp_not_waste hx
        have hna : isAsp x = false := isDisp_not_asp hx
        by_cases hcond : i = L - 1 ∨ (i ≠ 0 ∧ isWaste x = true)
        · rw [revScanGo, if_pos hcond]
          simp only [hx, hnw, Bool.false_eq_true, if_false, if_true, eq_self_iff_true]
          rw [hih _ _ _ hxs]
          simp [List.filter_append, List.filter_cons, hna, haspAll]
        · rw [revScanGo, if_neg hcond]
          simp only [hx, hnw, Bool.false_eq_true, if_false, if_true, eq_self_iff_true]
          rw [hih _ _ _ hxs]
          simp [List.filter_append, List.filter_cons, hna, haspAll]
      · have hnd : isDisp x = false := isWaste_not_disp hx
        have hna : isAsp x = false := isWaste_not_asp hx
        by_cases hcond : i = L - 1 ∨ (i ≠ 0 ∧ isWaste x = true)
        · rw [revScanGo, if_pos hcond]
          simp only [hx, hnd, Bool.false_eq_true, if_false, if_true, eq_self_iff_true]
          rw [hih _ _ _ hxs]
          simp [List.filter_append, List.filter_cons, hna, haspAll]
        · rw [revScanGo, if_neg hcond]
          simp only [hx, hnd, Bool.false_eq_true, if_false, if_true, eq_self_iff_true]
          rw [hih _ _ _ hxs]
          simp [List.filter_append, List.filter_cons, hna, haspAll]

/-- The reverse-scan output starts with the trailing Waste of the channel
(the first scanned element, which does not trigger an aspirate since the
list has at least two elements). -/
theorem revScanGo_head (liq : String) (M : ℚ) (v2 : List Cmd) (total : ℚ)
    (hlast : v2.getLast? = some Cmd.waste) (hlen : 2 ≤ v2.length) :
    ∃ t, (revScanGo v2.length liq M 0 v2.reverse [] 0 total).1 = Cmd.waste :: t := by
  have hrev : ∃ rest, v2.reverse = Cmd.waste :: rest := by
    have hh : v2.reverse.head? = some Cmd.waste := by
      rw [List.head?_reverse]
      exact hlast
    cases hv : v2.reverse with
    | nil => rw [hv] at hh; cases hh
    | cons a r =>
        rw [hv] at hh
        injection hh with hh
        subst hh
        exact ⟨r, rfl⟩
  obtain ⟨rest, hrest⟩ := hrev
  rw [hrest, revScanGo]
  have hcond : ¬(0 = v2.length - 1 ∨ (0 ≠ 0 ∧ isWaste Cmd.waste = true)) := by
    rintro (h0 | ⟨h0, _⟩)
    · omega
    · exact h0 rfl
  rw [if_neg hcond]
  have hnd : isDisp Cmd.waste = false := rfl
  rw [if_neg (by rw [hnd]; exact Bool.false_ne_true),
      if_neg (by rw [hnd]; exact Bool.false_ne_true),
      if_pos (show isWaste Cmd.waste = true from rfl)]
  obtain ⟨t, ht⟩ := revScanGo_prefix v2.length liq M rest 1 ([] ++ [Cmd.waste]) 0 total
  exact ⟨t, by rw [← ht]; simp⟩

/-- The aspirate synthesis of one channel keeps the sub-batch invariant
and keeps the trailing Waste at the end. -/
theorem revScan_channel_spec (liq : String) (M : ℚ) (m : ℕ) (v2 : List Cmd) (total : ℚ)
    (hrun : (v2.foldl runStep (0, 0)).1 ≤ m)
    (hdw : ∀ x ∈ v2, isDisp x = true ∨ isWaste x = true)
    (hlast : v2.getLast? = some Cmd.waste)
    (hlen : 2 ≤ v2.length) :
    maxDispRun ((revScanGo v2.length liq M 0 v2.reverse [] 0 total).1.reverse) ≤ m ∧
    ((revScanGo v2.length liq M 0 v2.reverse [] 0 total).1.reverse).getLast?
      = some Cmd.waste := by
  constructor
  · have hfil : ((revScanGo v2.length liq M 0 v2.reverse [] 0 total).1.reverse).filter
        (fun x => !isAsp x) = v2 := by
      have h1 := revScanGo_filter v2.length liq M v2.reverse 0 [] 0 total
        (fun x hx => hdw x (List.mem_reverse.mp hx))
      simp only [List.filter_nil, List.nil_append] at h1
      rw [List.filter_reverse, h1, List.reverse_reverse]
    have hle := maxDispRun_le_filter
      ((revScanGo v2.length liq M 0 v2.reverse [] 0 total).1.reverse)
      (fun x => !isAsp x)
      (fun x hx => by simp [isDisp_not_asp hx])
    rw [hfil] at hle
    exact le_trans hle hrun
  · obtain ⟨t, ht⟩ := revScanGo_head liq M v2 total hlast hlen
    rw [List.getLast?_reverse, ht]
    rfl

/-- The channel-by-channel aspirate synthesis pass preserves the batch
invariant and the trailing Waste for every channel. -/
theorem revScanChannels_spec (liq : String) (M : ℚ) (m : ℕ) :
    ∀ (vs : List (List Cmd)) (total : ℚ),
      (∀ v ∈ vs, (v.foldl runStep (0, 0)).1 ≤ m ∧
        (∀ x ∈ v, isDisp x = true ∨ isWaste x = true) ∧
        v.getLast? = some Cmd.waste ∧ 2 ≤ v.length) →
      ∀ l ∈ (revScanChannels liq M vs total).1,
        maxDispRun l ≤ m ∧ l.getLast? = some Cmd.waste := by
  intro vs
  induction vs with
  | nil =>
      intro total h l hl
      simp [revScanChannels] at hl
  | cons v rest ih =>
      intro total h l hl
      rw [revScanChannels] at hl
      rcases List.mem_cons.mp hl with rfl | hl2
      · obtain ⟨h1, h2, h3, h4⟩ := h v (List.mem_cons_self _ _)
        exact revScan_channel_spec liq M m v total h1 h2 h3 h4
      · exact ih _ (fun v3 hv3 => h v3 (List.mem_cons_of_mem _ hv3)) l hl2

/-- Structural description of a successful pip_mastermix run: multi_disp
is positive, and the emitted channels are the aspirate-synthesis pass
applied to fixed-up channel lists that all satisfy the sub-batch
invariants. -/
theorem pip_mastermix_channels_inv (rows : List DestRow) (mmVol : ℚ) (m : ℕ)
    (liq : String) (M : ℚ) (chs : List (List Cmd))
    (h : pip_mastermix_channels rows mmVol m liq M = some chs) :
    0 < m ∧ ∃ vs2 : List (List Cmd),
      chs = (revScanChannels liq M vs2 0).1 ∧
      ∀ v ∈ vs2, (v.foldl runStep (0, 0)).1 ≤ m ∧
        (∀ x ∈ v, isDisp x = true ∨ isWaste x = true) ∧
        v.getLast? = some Cmd.waste ∧ 2 ≤ v.length ∧
        (∀ x ∈ v, dispVol x = mmVol ∨ dispVol x = 0) := by
  simp only [pip_mastermix_channels] at h
  split_ifs at h with h1 h2 h3
  have hall : ∀ v ∈ (List.range 8).map (fillChannels mmVol liq m 0 rows (fun _ => [])),
      v ≠ [] := by
    intro v hv
    have := List.all_eq_true.mp h3 v hv
    simpa using this
  have hrows : rows ≠ [] := by
    intro hr
    subst hr
    have h0 : ([] : List Cmd)
        ∈ (List.range 8).map (fillChannels mmVol liq m 0 [] (fun _ => [])) := by
      simp [fillChannels, List.range_succ]
    exact hall [] h0 rfl
  have hm : 0 < m := by
    rcases Nat.eq_zero_or_pos m with rfl | hm
    · exfalso
      apply h2
      constructor
      · simpa using hrows
      · rfl
    · exact hm
  refine ⟨hm, (((List.range 8).map (fillChannels mmVol liq m 0 rows (fun _ => []))).map
    phase2), ?_, ?_⟩
  · exact (Option.some_injective _ h).symm
  · intro v hv
    obtain ⟨v0, hv0, rfl⟩ := List.mem_map.mp hv
    have hinv := chInv_fillChannels mmVol liq m hm rows 0 (fun _ => [])
      (fun c => chInv_nil m mmVol)
    have hinv0 : ChInv m mmVol v0 := by
      obtain ⟨c, hc, rfl⟩ := List.mem_map.mp hv0
      exact hinv c
    have hne : v0 ≠ [] := hall v0 hv0
    obtain ⟨p1, p2, p3, p4, p5⟩ := phase2_spec m mmVol v0 hm hinv0 hne
    exact ⟨p1, p2, p3, p4, p5⟩

/-- C4: for every command sequence pip_mastermix actually emits, no
channel contains more than multi_disp consecutive Dispense commands
(anywhere, in particular between two Wash markers), and every channel's
final list ends with a Wash marker. -/
theorem c4_batch_invariant (rows : List DestRow) (mmVol : ℚ) (m : ℕ) (liq : String)
    (M : ℚ) (chs : List (List Cmd))
    (h : pip_mastermix_channels rows mmVol m liq M = some chs) :
    ∀ l ∈ chs, maxDispRun l ≤ m ∧ l.getLast? = some Cmd.waste := by
  obtain ⟨hm, vs2, rfl, hvs⟩ := pip_mastermix_channels_inv rows mmVol m liq M _ h
  exact revScanChannels_spec liq M m vs2 0
    (fun v hv => ⟨(hvs v hv).1, (hvs v hv).2.1, (hvs v hv).2.2.1, (hvs v hv).2.2.2.1⟩)

/-- Witness for C4 on a concrete 8-row run, evaluated at channel 0. -/
theorem c4_batch_invariant_witness :
    maxDispRun [Cmd.aspirate 1 "1.5ml Eppendorf" 1 0 "Water Free Single",
        Cmd.dispense "Destination plate" "96 Well Eppendorf TwinTec PCR" 1 12 "Water Free Single",
        Cmd.waste] ≤ 6 ∧
    ([Cmd.aspirate 1 "1.5ml Eppendorf" 1 0 "Water Free Single",
        Cmd.dispense "Destination plate" "96 Well Eppendorf TwinTec PCR" 1 12 "Water Free Single",
        Cmd.waste] : List Cmd).getLast? = some Cmd.waste :=
  c4_batch_invariant (mkRows 8) 12 6 "Water Free Single" 1500
    [[Cmd.aspirate 1 "1.5ml Eppendorf" 1 0 "Water Free Single",
            Cmd.dispense "Destination plate" "96 Well Eppendorf TwinTec PCR" 1 12 "Water Free Single",
            Cmd.waste],
           [Cmd.aspirate 1 "1.5ml Eppendorf" 1 0 "Water Free Single",
            Cmd.dispense "Destination plate" "96 Well Eppendorf TwinTec PCR" 2 12 "Water Free Single",
            Cmd.waste],
           [Cmd.aspirate 1 "1.5ml Eppendorf" 1 0 "Water Free Single",
            Cmd.dispense "Destination plate" "96 Well Eppendorf TwinTec PCR" 3 12 "Water Free Single",
            Cmd.waste],
           [Cmd.aspirate 1 "1.5ml Eppendorf" 1 0 "Water Free Single",
            Cmd.dispense "Destination plate" "96 Well Eppendorf TwinTec PCR" 4 12 "Water Free Single",
            Cmd.waste],
           [Cmd.aspirate 1 "1.5ml Eppendorf" 1 0 "Water Free Single",
            Cmd.dispense "Destination plate" "96 Well Eppendorf TwinTec PCR" 5 12 "Water Free Single",
            Cmd.waste],
           [Cmd.aspirate 1 "1.5ml Eppendorf" 1 0 "Water Free Single",
            Cmd.dispense "Destination plate" "96 Well Eppendorf TwinTec PCR" 6 12 "Water Free Single",
            Cmd.waste],
           [Cmd.aspirate 1 "1.5ml Eppendorf" 1 0 "Water Free Single",
            Cmd.dispense "Destination plate" "96 Well Eppendorf TwinTec PCR" 7 12 "Water Free Single",
            Cmd.waste],
           [Cmd.aspirate 1 "1.5ml Eppendorf" 1 0 "Water Free Single",
            Cmd.dispense "Destination plate" "96 Well Eppendorf TwinTec PCR" 8 12 "Water Free Single",
            Cmd.waste]]
    (by norm_num [pip_mastermix_channels, fillChannels, mkRows, chStep, mkDisp,
      phase2, endsWasteB, revScanChannels, revScanGo, pyRound, pyInt,
      List.range_succ, Function.update, isDisp, isWaste, dispVol, psbl_liq_cls, round_eq])
    _ (List.mem_cons_self _ _)

/-- For a nonnegative argument Python int() agrees with the floor. -/
theorem pyInt_eq_floor (q : ℚ) (h : 0 ≤ q) : pyInt q = ⌊q⌋ := by
  unfold pyInt
  rw [if_neg (not_lt.mpr h)]

/-- aspTubeIds distributes over append. -/
theorem aspTubeIds_append (l1 l2 : List Cmd) :
    aspTubeIds (l1 ++ l2) = aspTubeIds l1 ++ aspTubeIds l2 := by
  simp [aspTubeIds, List.filterMap_append]

/-- aspTubeIds of a non-Aspirate singleton is empty. -/
theorem aspTubeIds_singleton_notAsp {x : Cmd} (h : isAsp x = false) :
    aspTubeIds [x] = [] := by
  cases x <;> simp_all [aspTubeIds, isAsp]

/-- aspTubeIds of an Aspirate singleton. -/
theorem aspTubeIds_asp (t : ℤ) (rt : String) (p : ℤ) (vol : ℚ) (lc : String) :
    aspTubeIds [Cmd.aspirate t rt p vol lc] = [t] := rfl

/-- aspTubeIds drops a leading non-Aspirate. -/
theorem aspTubeIds_cons_notAsp {x : Cmd} (h : isAsp x = false) (l : List Cmd) :
    aspTubeIds (x :: l) = aspTubeIds l := by
  cases x <;> simp_all [aspTubeIds, isAsp]

/-- aspTubeIds keeps a leading Aspirate. -/
theorem aspTubeIds_cons_asp (t : ℤ) (rt : String) (p : ℤ) (vol : ℚ) (lc : String)
    (l : List Cmd) :
    aspTubeIds (Cmd.aspirate t rt p vol lc :: l) = t :: aspTubeIds l := rfl

/-- aspTubeIds of the empty list. -/
theorem aspTubeIds_nil : aspTubeIds [] = [] := rfl

/-- aspTubeIds commutes with reversal. -/
theorem aspTubeIds_reverse (l : List Cmd) :
    aspTubeIds l.reverse = (aspTubeIds l).reverse := by
  simp [aspTubeIds, List.filterMap_reverse]

/-- Division by a positive capacity and flooring is monotone. -/
theorem floor_div_mono (M : ℚ) (hM : 0 < M) (a b : ℚ) (h : a ≤ b) :
    (⌊a / M⌋ : ℤ) ≤ ⌊b / M⌋ := by
  apply Int.floor_le_floor
  gcongr

/-- Tube labeling along one reverse scan: with nonnegative volumes and a
positive tube capacity, each emitted aspirate is labeled with
floor(total/M) + 1 for the current value of the monotonically growing
global counter, so the tube ids in the output accumulator stay sorted in
emission order, bounded above by the final counter's label, at least 1,
and every newly emitted id is at least the starting counter's label. -/
theorem revScanGo_tubeIds (L : ℕ) (liq : String) (M : ℚ) (hM : 0 < M) :
    ∀ (rest : List Cmd) (i : ℕ) (cmds : List Cmd) (volSum total : ℚ),
      0 ≤ volSum → 0 ≤ total →
      (∀ x ∈ rest, 0 ≤ dispVol x) →
      (∀ x ∈ rest, isDisp x = true ∨ isWaste x = true) →
      (aspTubeIds cmds).Chain' (· ≤ ·) →
      (∀ t ∈ aspTubeIds cmds, t ≤ ⌊total / M⌋ + 1) →
      (∀ t ∈ aspTubeIds cmds, 1 ≤ t) →
      (aspTubeIds (revScanGo L liq M i rest cmds volSum total).1).Chain' (· ≤ ·) ∧
      (∀ t ∈ aspTubeIds (revScanGo L liq M i rest cmds volSum total).1,
          t ≤ ⌊(revScanGo L liq M i rest cmds volSum total).2 / M⌋ + 1) ∧
      (∀ t ∈ aspTubeIds (revScanGo L liq M i rest cmds volSum total).1, 1 ≤ t) ∧
      (∀ t ∈ aspTubeIds (revScanGo L liq M i rest cmds volSum total).1,
          t ∈ aspTubeIds cmds ∨ ⌊total / M⌋ + 1 ≤ t) ∧
      total ≤ (revScanGo L liq M i rest cmds volSum total).2 ∧
      0 ≤ (revScanGo L liq M i rest cmds volSum total).2 := by
  intro rest
  induction rest with
  | nil =>
      intro i cmds volSum total hvs ht hrest hdw hch hub hlb
      rw [revScanGo]
      exact ⟨hch, hub, hlb, fun t htm => Or.inl htm, le_refl _, ht⟩
  | cons x xs ih =>
      intro i cmds volSum total hvs ht hrest hdw hch hub hlb
      have hvx : 0 ≤ dispVol x := hrest x (List.mem_cons_self _ _)
      have hvxs : ∀ y ∈ xs, 0 ≤ dispVol y :=
        fun y hy => hrest y (List.mem_cons_of_mem _ hy)
      have hdwx := hdw x (List.mem_cons_self _ _)
      have hdwxs : ∀ y ∈ xs, isDisp y = true ∨ isWaste y = true :=
        fun y hy => hdw y (List.mem_cons_of_mem _ hy)
      have hxna : isAsp x = false := by
        rcases hdwx with hx | hx
        · exact isDisp_not_asp hx
        · exact isWaste_not_asp hx
      rw [revScanGo]
      by_cases hcond : i = L - 1 ∨ (i ≠ 0 ∧ isWaste x = true)
      · rw [if_pos hcond]
        have htv : (0 : ℚ) ≤ total + volSum := by linarith
        have hmono : (⌊total / M⌋ : ℤ) ≤ ⌊(total + volSum) / M⌋ :=
          floor_div_mono M hM total (total + volSum) (by linarith)
        have htid : pyInt (total / M) + 1 = ⌊total / M⌋ + 1 := by
          rw [pyInt_eq_floor _ (div_nonneg ht (le_of_lt hM))]
        have h1pos : (1 : ℤ) ≤ pyInt (total / M) + 1 := by
          rw [htid]
          have := Int.floor_nonneg.mpr (div_nonneg ht (le_of_lt hM))
          omega
        have hids : aspTubeIds (((if isDisp x = true then cmds ++ [x] else cmds)
              ++ [Cmd.aspirate (pyInt (total / M) + 1) "1.5ml Eppendorf" 1
                   (pyRound (volSum * (23 / 20)) 1) liq])
            ++ (if isWaste x = true then [x] else []))
            = aspTubeIds cmds ++ [pyInt (total / M) + 1] := by
          split_ifs <;>
            simp [aspTubeIds_append, aspTubeIds_asp, aspTubeIds_nil, aspTubeIds_cons_asp,
              aspTubeIds_cons_notAsp hxna, aspTubeIds_singleton_notAsp hxna]
        have hIH := ih (i + 1)
          (((if isDisp x = true then cmds ++ [x] else cmds)
              ++ [Cmd.aspirate (pyInt (total / M) + 1) "1.5ml Eppendorf" 1
                   (pyRound (volSum * (23 / 20)) 1) liq])
            ++ (if isWaste x = true then [x] else []))
          0 (total + volSum) (le_refl 0) htv hvxs hdwxs
          (by
            rw [hids]
            apply List.chain'_append.mpr
            refine ⟨hch, List.chain'_singleton _, ?_⟩
            intro a ha b hb
            have ha2 : a ∈ aspTubeIds cmds := List.mem_of_mem_getLast? ha
            have hb2 : pyInt (total / M) + 1 = b := by simpa using hb
            rw [← hb2, htid]
            exact hub a ha2)
          (by
            rw [hids]
            intro t htm
            rcases List.mem_append.mp htm with htm | htm
            · exact le_trans (hub t htm) (by omega)
            · have : t = pyInt (total / M) + 1 := by simpa using htm
              subst this
              rw [htid]
              omega)
          (by
            rw [hids]
            intro t htm
            rcases List.mem_append.mp htm with htm | htm
            · exact hlb t htm
            · have : t = pyInt (total / M) + 1 := by simpa using htm
              subst this
              exact h1pos)
        obtain ⟨q1, q2, q3, q4, q5, q6⟩ := hIH
        refine ⟨q1, q2, q3, ?_, by linarith, q6⟩
        intro t htm
        rcases q4 t htm with h4 | h4
        · rw [hids] at h4
          rcases List.mem_append.mp h4 with h4 | h4
          · exact Or.inl h4
          · have : t = pyInt (total / M) + 1 := by simpa using h4
            subst this
            right
            rw [htid]
        · right
          omega
      · rw [if_neg hcond]
        have hids2 : aspTubeIds ((if isDisp x = true then cmds ++ [x] else cmds)
              ++ (if isWaste x = true then [x] else []))
            = aspTubeIds cmds := by
          split_ifs <;>
            simp [aspTubeIds_append, aspTubeIds_nil, aspTubeIds_cons_asp,
              aspTubeIds_cons_notAsp hxna, aspTubeIds_singleton_notAsp hxna]
        have hvs1 : 0 ≤ (if isDisp x = true then volSum + dispVol x else volSum) := by
          split_ifs
          · linarith
          · exact hvs
        have hIH := ih (i + 1)
          ((if isDisp x = true then cmds ++ [x] else cmds)
            ++ (if isWaste x = true then [x] else []))
          (if isDisp x = true then volSum + dispVol x else volSum) total hvs1 ht hvxs hdwxs
          (by rw [hids2]; exact hch)
          (by rw [hids2]; exact hub)
          (by rw [hids2]; exact hlb)
        obtain ⟨q1, q2, q3, q4, q5, q6⟩ := hIH
        refine ⟨q1, q2, q3, ?_, q5, q6⟩
        intro t htm
        rcases q4 t htm with h4 | h4
        · rw [hids2] at h4
          exact Or.inl h4
        · exact Or.inr h4

/-- Tube labels across the whole compilation, in emission order over the
channels: sorted, bounded between the labels of the starting and final
counter values, and at least 1. -/
theorem revScanChannels_tubeIds (liq : String) (M : ℚ) (hM : 0 < M) :
    ∀ (vs : List (List Cmd)) (total : ℚ), 0 ≤ total →
      (∀ v ∈ vs, ∀ x ∈ v, 0 ≤ dispVol x) →
      (∀ v ∈ vs, ∀ x ∈ v, isDisp x = true ∨ isWaste x = true) →
      (emissionTubeIds (revScanChannels liq M vs total).1).Chain' (· ≤ ·) ∧
      (∀ t ∈ emissionTubeIds (revScanChannels liq M vs total).1,
          ⌊total / M⌋ + 1 ≤ t ∧ t ≤ ⌊(revScanChannels liq M vs total).2 / M⌋ + 1 ∧ 1 ≤ t) ∧
      total ≤ (revScanChannels liq M vs total).2 ∧
      0 ≤ (revScanChannels liq M vs total).2 := by
  intro vs
  induction vs with
  | nil =>
      intro total h0 hv hdw
      rw [revScanChannels]
      refine ⟨?_, ?_, le_refl _, h0⟩
      · simp [emissionTubeIds]
      · intro t htm
        simp [emissionTubeIds] at htm
  | cons v rest ih =>
      intro total h0 hv hdw
      rw [revScanChannels]
      dsimp only
      have hK := revScanGo_tubeIds v.length liq M hM v.reverse 0 [] 0 total (le_refl 0) h0
        (fun x hx => hv v (List.mem_cons_self _ _) x (List.mem_reverse.mp hx))
        (fun x hx => hdw v (List.mem_cons_self _ _) x (List.mem_reverse.mp hx))
        (by simp [aspTubeIds]) (by simp [aspTubeIds]) (by simp [aspTubeIds])
      obtain ⟨k1, k2, k3, k4, k5, k6⟩ := hK
      have hIH := ih (revScanGo v.length liq M 0 v.reverse [] 0 total).2 k6
        (fun v2 hv2 => hv v2 (List.mem_cons_of_mem _ hv2))
        (fun v2 hv2 => hdw v2 (List.mem_cons_of_mem _ hv2))
      obtain ⟨j1, j2, j3, j4⟩ := hIH
      have hemi : emissionTubeIds
            ((revScanGo v.length liq M 0 v.reverse [] 0 total).1.reverse
              :: (revScanChannels liq M rest
                    (revScanGo v.length liq M 0 v.reverse [] 0 total).2).1)
          = aspTubeIds (revScanGo v.length liq M 0 v.reverse [] 0 total).1
            ++ emissionTubeIds (revScanChannels liq M rest
                  (revScanGo v.length liq M 0 v.reverse [] 0 total).2).1 := by
        simp [emissionTubeIds, aspTubeIds_reverse, List.reverse_reverse]
      have hmono2 : (⌊(revScanGo v.length liq M 0 v.reverse [] 0 total).2 / M⌋ : ℤ)
          ≤ ⌊(revScanChannels liq M rest
                (revScanGo v.length liq M 0 v.reverse [] 0 total).2).2 / M⌋ :=
        floor_div_mono M hM _ _ j3
      have hmono1 : (⌊total / M⌋ : ℤ)
          ≤ ⌊(revScanGo v.length liq M 0 v.reverse [] 0 total).2 / M⌋ :=
        floor_div_mono M hM _ _ k5
      refine ⟨?_, ?_, le_trans k5 j3, j4⟩
      · rw [hemi]
        apply List.chain'_append.mpr
        refine ⟨k1, j1, ?_⟩
        intro a ha b hb
        have ha2 := List.mem_of_mem_getLast? ha
        have hb2 := List.mem_of_mem_head? hb
        exact le_trans (k2 a ha2) (j2 b hb2).1
      · rw [hemi]
        intro t htm
        rcases List.mem_append.mp htm with htm | htm
        · have hk4 := k4 t htm
          rcases hk4 with hk4 | hk4
          · simp [aspTubeIds] at hk4
          · exact ⟨hk4, le_trans (k2 t htm) (by omega), k3 t htm⟩
        · obtain ⟨ja, jb, jc⟩ := j2 t htm
          exact ⟨le_trans (by omega) ja, jb, jc⟩

/-! ## Claim theorems -/

/-- C1 (code_bug evaluation): on 8 mastermix transfers of 12 uL with
multi_disp = 6, every Aspirate synthesized by pip_mastermix has Volume 0,
although each covers one Dispense of 12 uL.  Volume conservation
(aspirateVolume = round(coveredDispenseSum * 1.15, 1) = 13.8) fails for
the first sub-batch of each channel because the reverse scan skips the
volume accumulation for the dispense it processes at index len(v)-1. -/
theorem c1_first_subbatch_volume_bug :
    (pip_mastermix (mkRows 8) 12 6 "Water Free Single" 1500).map aspVolumes
      = some (List.replicate 8 0) ∧
    (pip_mastermix (mkRows 8) 12 6 "Water Free Single" 1500).map dispVolumes
      = some (List.replicate 8 12) ∧
    pyRound (12 * (23 / 20)) 1 = 69 / 5 ∧ (0 : ℚ) ≠ 69 / 5 := by
  refine ⟨?_, ?_, ?_, ?_⟩
  · norm_num [pip_mastermix, pip_mastermix_channels, fillChannels, mkRows, chStep, mkDisp,
      phase2, endsWasteB, revScanChannels, revScanGo, aspVolumes, pyRound, pyInt,
      List.range_succ, Function.update, isDisp, isWaste, dispVol, psbl_liq_cls, round_eq,
      List.filterMap_cons, List.replicate]
  · norm_num [pip_mastermix, pip_mastermix_channels, fillChannels, mkRows, chStep, mkDisp,
      phase2, endsWasteB, revScanChannels, revScanGo, dispVolumes, pyRound, pyInt,
      List.range_succ, Function.update, isDisp, isWaste, dispVol, psbl_liq_cls, round_eq,
      List.filterMap_cons, List.replicate]
  · norm_num [pyRound, round_eq]
  · norm_num

set_option maxHeartbeats 1600000 in
/-- C2 (counterexample): on 16 mastermix transfers of 12 uL with
multi_disp 6 and tube capacity 20, the synthesized aspirates carry tube
ids [1, 1, 2, 2, 3, 4, 4, 5]; the total dispensed volume is 192, so the
claimed formula floor((V - eps)/M) + 1 gives 10, not the actual highest
tube id 5; and the aspirates labeled tube 1 sum (pre-overage, after
dividing the 1.15 overage out) to 24 > 20 = M. -/
theorem c2_counterexample :
    (pip_mastermix (mkRows 16) 12 6 "Water Free Single" 20).map aspTubeIds
      = some [1, 1, 2, 2, 3, 4, 4, 5] ∧
    (pip_mastermix (mkRows 16) 12 6 "Water Free Single" 20).map
      (fun g => (dispVolumes g).sum) = some 192 ∧
    (⌊((192 : ℚ) - 1 / 100) / 20⌋ + 1 : ℤ) = 10 ∧ (5 : ℤ) ≠ 10 ∧
    (pip_mastermix (mkRows 16) 12 6 "Water Free Single" 20).map (tubeVolume 1)
      = some (138 / 5) ∧ ((138 : ℚ) / 5) / (23 / 20) = 24 ∧ ¬((24 : ℚ) ≤ 20) := by
  refine ⟨?_, ?_, ?_, ?_, ?_, ?_, ?_⟩
  · norm_num [pip_mastermix, pip_mastermix_channels, fillChannels, mkRows, chStep, mkDisp,
      phase2, endsWasteB, revScanChannels, revScanGo, aspTubeIds, pyRound, pyInt,
      List.range_succ, Function.update, isDisp, isWaste, dispVol, psbl_liq_cls, round_eq,
      List.filterMap_cons]
  · norm_num [pip_mastermix, pip_mastermix_channels, fillChannels, mkRows, chStep, mkDisp,
      phase2, endsWasteB, revScanChannels, revScanGo, dispVolumes, pyRound, pyInt,
      List.range_succ, Function.update, isDisp, isWaste, dispVol, psbl_liq_cls, round_eq,
      List.filterMap_cons]
  · norm_num
  · norm_num
  · norm_num [pip_mastermix, pip_mastermix_channels, fillChannels, mkRows, chStep, mkDisp,
      phase2, endsWasteB, revScanChannels, revScanGo, tubeVolume, pyRound, pyInt,
      List.range_succ, Function.update, isDisp, isWaste, dispVol, psbl_liq_cls, round_eq,
      List.filterMap_cons]
  · norm_num
  · norm_num

/-- C2 (amended): each synthesized Aspirate is labeled with tubeId =
floor(cumulativeVolumeDrawn / sourceMaxVolume) + 1, where
cumulativeVolumeDrawn is the single counter threaded over the whole
reagent compilation (all channels, in channel order) and incremented
after labeling by that aspirate's accumulated dispense-volume sum;
consequently, in labeling order, the tube ids are non-decreasing (so the
highest tube id is the last one labeled) and always at least 1.  The
closed-form floor((V - eps)/M) + 1 for the highest tube id and the
per-tube capacity bound of the original claim do not hold (see the
counterexample). -/
theorem c2_tubeIds_monotone (rows : List DestRow) (mmVol : ℚ) (m : ℕ) (liq : String)
    (M : ℚ) (chs : List (List Cmd)) (hmm : 0 ≤ mmVol) (hM : 0 < M)
    (h : pip_mastermix_channels rows mmVol m liq M = some chs) :
    (emissionTubeIds chs).Chain' (· ≤ ·) ∧ ∀ t ∈ emissionTubeIds chs, 1 ≤ t := by
  obtain ⟨hm, vs2, rfl, hvs⟩ := pip_mastermix_channels_inv rows mmVol m liq M _ h
  have hK := revScanChannels_tubeIds liq M hM vs2 0 (le_refl 0)
    (fun v hv x hx => by
      rcases (hvs v hv).2.2.2.2 x hx with h1 | h1
      · rw [h1]
        exact hmm
      · exact le_of_eq h1.symm)
    (fun v hv => (hvs v hv).2.1)
  exact ⟨hK.1, fun t ht => (hK.2.1 t ht).2.2⟩

set_option maxHeartbeats 1600000 in
/-- Witness for C2 amended on the concrete 16-row run. -/
theorem c2_tubeIds_monotone_witness :
    (emissionTubeIds
      [[Cmd.aspirate 1 "1.5ml Eppendorf" 1 (69 / 5) "Water Free Single",
        Cmd.dispense "Destination plate" "96 Well Eppendorf TwinTec PCR" 1 12 "Water Free Single",
        Cmd.dispense "Destination plate" "96 Well Eppendorf TwinTec PCR" 9 12 "Water Free Single",
        Cmd.waste],
       [Cmd.aspirate 1 "1.5ml Eppendorf" 1 (69 / 5) "Water Free Single",
        Cmd.dispense "Destination plate" "96 Well Eppendorf TwinTec PCR" 2 12 "Water Free Single",
        Cmd.dispense "Destination plate" "96 Well Eppendorf TwinTec PCR" 10 12 "Water Free Single",
        Cmd.waste],
       [Cmd.aspirate 2 "1.5ml Eppendorf" 1 (69 / 5) "Water Free Single",
        Cmd.dispense "Destination plate" "96 Well Eppendorf TwinTec PCR" 3 12 "Water Free Single",
        Cmd.dispense "Destination plate" "96 Well Eppendorf TwinTec PCR" 11 12 "Water Free Single",
        Cmd.waste],
       [Cmd.aspirate 2 "1.5ml Eppendorf" 1 (69 / 5) "Water Free Single",
        Cmd.dispense "Destination plate" "96 Well Eppendorf TwinTec PCR" 4 12 "Water Free Single",
        Cmd.dispense "Destination plate" "96 Well Eppendorf TwinTec PCR" 12 12 "Water Free Single",
        Cmd.waste],
       [Cmd.aspirate 3 "1.5ml Eppendorf" 1 (69 / 5) "Water Free Single",
        Cmd.dispense "Destination plate" "96 Well Eppendorf TwinTec PCR" 5 12 "Water Free Single",
        Cmd.dispense "Destination plate" "96 Well Eppendorf TwinTec PCR" 13 12 "Water Free Single",
        Cmd.waste],
       [Cmd.aspirate 4 "1.5ml Eppendorf" 1 (69 / 5) "Water Free Single",
        Cmd.dispense "Destination plate" "96 Well Eppendorf TwinTec PCR" 6 12 "Water Free Single",
        Cmd.dispense "Destination plate" "96 Well Eppendorf TwinTec PCR" 14 12 "Water Free Single",
        Cmd.waste],
       [Cmd.aspirate 4 "1.5ml Eppendorf" 1 (69 / 5) "Water Free Single",
        Cmd.dispense "Destination plate" "96 Well Eppendorf TwinTec PCR" 7 12 "Water Free Single",
        Cmd.dispense "Destination plate" "96 Well Eppendorf TwinTec PCR" 15 12 "Water Free Single",
        Cmd.waste],
       [Cmd.aspirate 5 "1.5ml Eppendorf" 1 (69 / 5) "Water Free Single",
        Cmd.dispense "Destination plate" "96 Well Eppendorf TwinTec PCR" 8 12 "Water Free Single",
        Cmd.dispense "Destination plate" "96 Well Eppendorf TwinTec PCR" 16 12 "Water Free Single",
        Cmd.waste]]).Chain' (· ≤ ·) ∧
    ∀ t ∈ emissionTubeIds
      [[Cmd.aspirate 1 "1.5ml Eppendorf" 1 (69 / 5) "Water Free Single",
        Cmd.dispense "Destination plate" "96 Well Eppendorf TwinTec PCR" 1 12 "Water Free Single",
        Cmd.dispense "Destination plate" "96 Well Eppendorf TwinTec PCR" 9 12 "Water Free Single",
        Cmd.waste],
       [Cmd.aspirate 1 "1.5ml Eppendorf" 1 (69 / 5) "Water Free Single",
        Cmd.dispense "Destination plate" "96 Well Eppendorf TwinTec PCR" 2 12 "Water Free Single",
        Cmd.dispense "Destination plate" "96 Well Eppendorf TwinTec PCR" 10 12 "Water Free Single",
        Cmd.waste],
       [Cmd.aspirate 2 "1.5ml Eppendorf" 1 (69 / 5) "Water Free Single",
        Cmd.dispense "Destination plate" "96 Well Eppendorf TwinTec PCR" 3 12 "Water Free Single",
        Cmd.dispense "Destination plate" "96 Well Eppendorf TwinTec PCR" 11 12 "Water Free Single",
        Cmd.waste],
       [Cmd.aspirate 2 "1.5ml Eppendorf" 1 (69 / 5) "Water Free Single",
        Cmd.dispense "Destination plate" "96 Well Eppendorf TwinTec PCR" 4 12 "Water Free Single",
        Cmd.dispense "Destination plate" "96 Well Eppendorf TwinTec PCR" 12 12 "Water Free Single",
        Cmd.waste],
       [Cmd.aspirate 3 "1.5ml Eppendorf" 1 (69 / 5) "Water Free Single",
        Cmd.dispense "Destination plate" "96 Well Eppendorf TwinTec PCR" 5 12 "Water Free Single",
        Cmd.dispense "Destination plate" "96 Well Eppendorf TwinTec PCR" 13 12 "Water Free Single",
        Cmd.waste],
       [Cmd.aspirate 4 "1.5ml Eppendorf" 1 (69 / 5) "Water Free Single",
        Cmd.dispense "Destination plate" "96 Well Eppendorf TwinTec PCR" 6 12 "Water Free Single",
        Cmd.dispense "Destination plate" "96 Well Eppendorf TwinTec PCR" 14 12 "Water Free Single",
        Cmd.waste],
       [Cmd.aspirate 4 "1.5ml Eppendorf" 1 (69 / 5) "Water Free Single",
        Cmd.dispense "Destination plate" "96 Well Eppendorf TwinTec PCR" 7 12 "Water Free Single",
        Cmd.dispense "Destination plate" "96 Well Eppendorf TwinTec PCR" 15 12 "Water Free Single",
        Cmd.waste],
       [Cmd.aspirate 5 "1.5ml Eppendorf" 1 (69 / 5) "Water Free Single",
        Cmd.dispense "Destination plate" "96 Well Eppendorf TwinTec PCR" 8 12 "Water Free Single",
        Cmd.dispense "Destination plate" "96 Well Eppendorf TwinTec PCR" 16 12 "Water Free Single",
        Cmd.waste]], 1 ≤ t :=
  c2_tubeIds_monotone (mkRows 16) 12 6 "Water Free Single" 20 _ (by norm_num) (by norm_num)
    (by norm_num [pip_mastermix_channels, fillChannels, mkRows, chStep, mkDisp,
      phase2, endsWasteB, revScanChannels, revScanGo, pyRound, pyInt,
      List.range_succ, Function.update, isDisp, isWaste, dispVol, psbl_liq_cls, round_eq])

/-- C3 (counterexample): with mm_volume = 0 every transfer has volume 0,
yet pip_mastermix assigns all 8 of them to channels and emits all 8
zero-volume Dispense commands: zero-volume transfers are not dropped. -/
theorem c3_counterexample :
    (pip_mastermix (mkRows 8) 0 6 "Water Free Single" 1500).map dispVolumes
      = some (List.replicate 8 0) ∧
    (pip_mastermix (mkRows 8) 0 6 "Water Free Single" 1500).map
      (fun g => (dispVolumes g).length) = some 8 := by
  refine ⟨?_, ?_⟩ <;>
    norm_num [pip_mastermix, pip_mastermix_channels, fillChannels, mkRows, chStep, mkDisp,
      phase2, endsWasteB, revScanChannels, revScanGo, dispVolumes, pyRound, pyInt,
      List.range_succ, Function.update, isDisp, isWaste, dispVol, psbl_liq_cls, round_eq,
      List.filterMap_cons, List.replicate]

/-- C5: the dilution round-trip scenario c1=50, c2=5, minVol=2, maxVol=30,
minTotal=10 (for any destination capacity of at least 20): provisional
total 20 (not raised), sample volume 2, diluent 18, recomputed total 20,
final concentration exactly the target 5. -/
theorem c5_dilution_roundtrip (mwv : ℚ) (h : 20 ≤ mwv) :
    dilution_volumes_row 50 5 2 30 10 mwv = some ⟨2, 18, 20, 5⟩ := by
  have h2 : ¬((20 : ℚ) > mwv) := not_lt.mpr h
  simp only [dilution_volumes_row, calc_total_volume, calc_sample_volume,
    calc_dilutant_volume]
  norm_num [h2]

/-- Witness for C5 at a concrete destination capacity. -/
theorem c5_dilution_roundtrip_witness :
    dilution_volumes_row 50 5 2 30 10 200 = some ⟨2, 18, 20, 5⟩ :=
  c5_dilution_roundtrip 200 (by norm_num)

/-- C6 (code_bug evaluation): with c1=50, c2=5, minVol=2, maxVol=30,
minTotal=30 and destination max well volume 25, the provisional total 20
passes the capacity check, is then raised to minTotal=30 > 25, and the
planner returns volumes with post-dilution total 30 without raising any
error: the capacity check runs before the minTotal raise, so a
minTotal-induced excess is not rejected. -/
theorem c6_mintotal_overflow_bug :
    dilution_volumes_row 50 5 2 30 30 25 = some ⟨3, 27, 30, 5⟩ ∧
    (25 : ℚ) < 30 := by
  refine ⟨?_, ?_⟩
  · norm_num [dilution_volumes_row, calc_total_volume, calc_sample_volume,
      calc_dilutant_volume]
  · norm_num

/-- C7: the 384-well reorder returns the same multiset of rows (each row
travelling with its position), odd positions first and then even ones,
each parity group keeping the original relative order (it is a sublist of
the input); for any other well count the table is returned unchanged; and
positions [1,2,3,4] reorder to [1,3,2,4]. -/
theorem c7_reorder_384 : ∀ (α : Type) (nWells : ℕ) (rows : List (PlateRow α)),
    (reorder_384well nWells rows).Perm rows ∧
    (nWells ≠ 384 → reorder_384well nWells rows = rows) ∧
    (reorder_384well 384 rows
        = rows.filter (fun r => r.position % 2 != 0)
            ++ rows.filter (fun r => r.position % 2 == 0) ∧
      (rows.filter (fun r => r.position % 2 != 0)).Sublist rows ∧
      (rows.filter (fun r => r.position % 2 == 0)).Sublist rows) ∧
    reorder_384well 384
        [(⟨1, "r1"⟩ : PlateRow String), ⟨2, "r2"⟩, ⟨3, "r3"⟩, ⟨4, "r4"⟩]
      = [⟨1, "r1"⟩, ⟨3, "r3"⟩, ⟨2, "r2"⟩, ⟨4, "r4"⟩] := by
  intro α nWells rows
  refine ⟨?_, ?_, ⟨?_, ?_, ?_⟩, ?_⟩
  · by_cases h : nWells = 384
    · subst h
      simp only [reorder_384well, if_pos rfl]
      have hnot : (fun r : PlateRow α => r.position % 2 == 0)
          = (fun r => !(r.position % 2 != 0)) := by
        funext r
        simp [bne]
      rw [hnot]
      exact List.filter_append_perm _ rows
    · simp [reorder_384well, h]
  · intro h
    simp [reorder_384well, h]
  · simp [reorder_384well]
  · exact List.filter_sublist _
  · exact List.filter_sublist _
  · decide

/-- Witness for C7 at a concrete non-384 well count. -/
theorem c7_reorder_384_witness :
    reorder_384well 96 [(⟨5, "x"⟩ : PlateRow String)] = [⟨5, "x"⟩] :=
  (c7_reorder_384 String 96 [⟨5, "x"⟩]).2.1 (by decide)

/-- C8 (counterexample): assigning Position := 0 on an asp_disp command
object succeeds (no error is raised) and the stored position is 0, which
is not positive: the asp_disp Position setter only coerces with int(). -/
theorem c8_counterexample :
    (set_Position asp_disp_init 0).Position = 0 ∧
    ¬(0 < (set_Position asp_disp_init 0).Position) := by
  refine ⟨?_, ?_⟩ <;> decide

/-- C8 (amended): the asp_disp Position setter stores int(value) with no
positivity check (so every numeric assignment succeeds, including 0 and
negatives); the positivity check exists only on the multi_disp
DestPositions setter, which succeeds exactly on lists whose int-coerced
minimum is positive — after a successful assignment all stored positions
are positive, and any list containing a non-positive value is rejected. -/
theorem c8_position_amended :
    (∀ (c : asp_disp) (v : ℚ), (set_Position c v).Position = pyInt v) ∧
    (∀ (vals : List ℚ) (res : List ℤ), set_DestPositions vals = .ok res →
        res = vals.map pyInt ∧ ∀ x ∈ res, 0 < x) ∧
    (∀ vals : List ℚ, (∃ q ∈ vals, pyInt q ≤ 0) →
        ∃ e, set_DestPositions vals = .error e) := by
  refine ⟨fun c v => rfl, ?_, ?_⟩
  · intro vals res hok
    match h : vals with
    | [] => simp [set_DestPositions, List.min?] at hok
    | a :: l =>
        simp only [set_DestPositions, List.map, List.min?] at hok
        split_ifs at hok with hmn
        · cases hok
          refine ⟨rfl, ?_⟩
          intro x hx
          have hle := foldl_min_le_mem (l.map pyInt) (pyInt a) x hx
          exact lt_of_lt_of_le hmn hle
  · intro vals hex
    rcases hex with ⟨q, hq, hle⟩
    match vals with
    | [] => cases hq
    | a :: l =>
        have hmem : pyInt q ∈ (a :: l).map pyInt := List.mem_map_of_mem pyInt hq
        have hmin : ((a :: l).map pyInt).min? = some ((l.map pyInt).foldl min (pyInt a)) := rfl
        have hbound := foldl_min_le_mem (l.map pyInt) (pyInt a) (pyInt q) hmem
        have hnot : ¬((l.map pyInt).foldl min (pyInt a) > 0) := by
          intro hgt
          exact absurd (lt_of_lt_of_le hgt hbound) (not_lt.mpr hle)
        refine ⟨"AssertionError: Min position is <= 0", ?_⟩
        simp only [set_DestPositions, List.map, List.min?]
        rw [if_neg hnot]

/-- Witness for C8 amended at concrete inputs. -/
theorem c8_position_amended_witness :
    (set_Position asp_disp_init 0).Position = pyInt 0 ∧
    ∃ e, set_DestPositions [0] = .error e :=
  ⟨c8_position_amended.1 asp_disp_init 0,
   c8_position_amended.2.2 [0] ⟨0, by decide, by decide⟩⟩

/-- C10: the public constructors Fluent.aspirate() and Fluent.dispense()
pass none of the six required positional arguments to asp_disp.__init__
and therefore always raise TypeError; consequently Dilute.pip_samples on
any non-empty table aborts with that TypeError after writing only the
Samples comment, before emitting any transfer command. -/
theorem c10_constructors_typeerror :
    aspirate_new = .error initMissingArgs ∧
    dispense_new = .error initMissingArgs ∧
    ∀ rows : List SampleRow, rows ≠ [] →
      pip_samples rows = ([GwlLine.commentLine "Samples"], some initMissingArgs) := by
  refine ⟨rfl, rfl, ?_⟩
  intro rows h
  cases rows with
  | nil => exact absurd rfl h
  | cons r rs => rfl

/-- Witness for C10 on a concrete one-row table. -/
theorem c10_constructors_typeerror_witness :
    pip_samples [⟨"plate", "96 Well Eppendorf TwinTec PCR", 1, 2, "dest", "96 Well Eppendorf TwinTec PCR", 1⟩]
      = ([GwlLine.commentLine "Samples"], some initMissingArgs) :=
  c10_constructors_typeerror.2.2 _ (by decide)

/-- C9: check_gwl raises an error if and only if the input contains an
empty line or a non-empty line whose first character is not one of the
tags A, D, R, W, F, C, B; in particular every input all of whose lines are
non-empty and begin with one of these tags passes without error. -/
theorem c9_check_gwl_iff (lines : List (List Char)) :
    check_gwl lines = true ↔ ∃ l ∈ lines, specInvalidLine l = true := by
  unfold check_gwl
  rw [List.any_eq_true]
  constructor
  · rintro ⟨l, hl, hc⟩
    exact ⟨l, hl, (checkLine_eq_spec l).symm.trans hc⟩
  · rintro ⟨l, hl, hs⟩
    exact ⟨l, hl, (checkLine_eq_spec l).trans hs⟩

/-- The dispenses appended by one chStep. -/
theorem chStep_filter (m : ℕ) (d : Cmd) (v : List Cmd) (hd : isDisp d = true) :
    (chStep m d v).filter isDisp = v.filter isDisp ++ [d] := by
  have hw : isDisp Cmd.waste = false := rfl
  simp only [chStep]
  split_ifs <;> simp [List.filter_append, List.filter_cons, hd, hw]

/-- The dispenses of channel c after the distribute loop are exactly the
rows whose global index is congruent to c mod 8, in input order. -/
theorem fillChannels_filter (mmVol : ℚ) (liq : String) (m : ℕ) :
    ∀ (rows : List DestRow) (i : ℕ) (ch : ℕ → List Cmd) (c : ℕ),
      ((fillChannels mmVol liq m i rows ch) c).filter isDisp
        = ((ch c).filter isDisp)
          ++ ((List.enumFrom i rows).filter (fun p => decide (p.1 % 8 = c))).map
              (fun p => mkDisp mmVol liq p.2) := by
  intro rows
  induction rows with
  | nil =>
      intro i ch c
      simp [fillChannels, List.enumFrom]
  | cons r rs ih =>
      intro i ch c
      rw [fillChannels, ih]
      have henum : List.enumFrom i (r :: rs) = (i, r) :: List.enumFrom (i + 1) rs := rfl
      rw [henum, List.filter_cons]
      simp only [Function.update_apply]
      by_cases hc : i % 8 = c
      · rw [if_pos hc.symm, chStep_filter m (mkDisp mmVol liq r) (ch (i % 8)) rfl]
        simp [hc]
      · rw [if_neg (fun hcc => hc hcc.symm)]
        simp [hc]

/-- Closed form for the number of indices below n congruent to c mod 8. -/
theorem countP_range_mod8 (n c : ℕ) (hc : c < 8) :
    ((List.range n).countP (fun i => decide (i % 8 = c)))
      = n / 8 + (if c < n % 8 then 1 else 0) := by
  induction n with
  | zero => simp
  | succ n ih =>
      rw [List.range_succ, List.countP_append, ih]
      have hsing : List.countP (fun i => decide (i % 8 = c)) [n]
          = if n % 8 = c then 1 else 0 := by
        simp [List.countP_cons]
      rw [hsing]
      split_ifs <;> omega

/-- C3 (amended): pip_mastermix assigns row i to channel i mod 8 without
dropping any transfer (all transfers carry the same mm_volume, and even a
zero volume is assigned); each channel receives the rows congruent to its
index in original relative order, and the per-channel dispense counts are
floor(n/8) or ceil(n/8). -/
theorem c3_distribute_amended (rows : List DestRow) (mmVol : ℚ) (liq : String)
    (m : ℕ) (c : ℕ) (hm : 0 < m) (hc : c < 8) :
    ((fillChannels mmVol liq m 0 rows (fun _ => [])) c).filter isDisp
        = ((List.enumFrom 0 rows).filter (fun p => decide (p.1 % 8 = c))).map
            (fun p => mkDisp mmVol liq p.2) ∧
    (((fillChannels mmVol liq m 0 rows (fun _ => [])) c).filter isDisp).length
        = rows.length / 8 + (if c < rows.length % 8 then 1 else 0) ∧
    ((((fillChannels mmVol liq m 0 rows (fun _ => [])) c).filter isDisp).length
        = rows.length / 8 ∨
      (((fillChannels mmVol liq m 0 rows (fun _ => [])) c).filter isDisp).length
        = (rows.length + 7) / 8) := by
  have hfil := fillChannels_filter mmVol liq m rows 0 (fun _ => []) c
  simp only [List.filter_nil] at hfil
  have hlen : (((fillChannels mmVol liq m 0 rows (fun _ => [])) c).filter isDisp).length
      = rows.length / 8 + (if c < rows.length % 8 then 1 else 0) := by
    rw [hfil]
    simp only [List.nil_append, List.length_map]
    rw [← List.countP_eq_length_filter]
    have h1 : (List.enumFrom 0 rows).countP (fun p => decide (p.1 % 8 = c))
        = ((List.enumFrom 0 rows).map Prod.fst).countP (fun i => decide (i % 8 = c)) := by
      rw [List.countP_map]
      rfl
    rw [h1]
    have h2 : (List.enumFrom 0 rows).map Prod.fst = List.range rows.length :=
      List.enum_map_fst rows
    rw [h2, countP_range_mod8 _ _ hc]
  refine ⟨by simpa using hfil, hlen, ?_⟩
  rw [hlen]
  have hmod : rows.length % 8 < 8 := Nat.mod_lt _ (by omega)
  by_cases hlt : c < rows.length % 8
  · right
    simp only [if_pos hlt]
    omega
  · left
    simp only [if_neg hlt, Nat.add_zero]

/-- Witness for C3 amended on a concrete 11-row table, channel 2. -/
theorem c3_distribute_amended_witness :
    ((fillChannels 13 "Water Free Single" 6 0 (mkRows 11) (fun _ => [])) 2).filter isDisp
        = ((List.enumFrom 0 (mkRows 11)).filter (fun p => decide (p.1 % 8 = 2))).map
            (fun p => mkDisp 13 "Water Free Single" p.2) ∧
    (((fillChannels 13 "Water Free Single" 6 0 (mkRows 11) (fun _ => [])) 2).filter isDisp).length
        = (mkRows 11).length / 8 + (if 2 < (mkRows 11).length % 8 then 1 else 0) ∧
    ((((fillChannels 13 "Water Free Single" 6 0 (mkRows 11) (fun _ => [])) 2).filter isDisp).length
        = (mkRows 11).length / 8 ∨
      (((fillChannels 13 "Water Free Single" 6 0 (mkRows 11) (fun _ => [])) 2).filter isDisp).length
        = ((mkRows 11).length + 7) / 8) :=
  c3_distribute_amended (mkRows 11) 13 "Water Free Single" 6 2 (by decide) (by decide)

end PyTecanFluent
